import Mathlib

/-!
A shallow embedding of the Roli-Seaboard-Web-API synthesizer core
(`js/Synthetizers.js` and `js/Filters.js`) in Lean 4.

JavaScript numbers are modelled by `JVal`: either a rational, one of the two
infinities, `NaN`, or `undefined` (a missing object property or argument).
`null` and `undefined` are merged into `JVal.undef`: the code only ever tests
them for falsiness and both are falsy. Truthiness, addition, subtraction,
comparison, division and `isNaN` follow the JavaScript semantics on these
values.

The frequency mapping `MIDIController.noteToFrequency` lives in `js/MIDI.js`,
which is not part of the sources; inside the state machine its results are
kept symbolic (`FreqVal.noteFreq n` stands for `noteToFrequency(n)`), and the
mapping itself is modelled separately from the spec over the reals.

Audio nodes are modelled by the observable effects the code performs on them:
current parameter values, the list of scheduled automation ramps
(`linearRampToValueAtTime` / `exponentialRampToValueAtTime` entries as
(target, end-time) pairs), connection flags, and the number of `start()`
calls.  Node allocation order follows the code (gain node first, then the
oscillator), with identities drawn from an allocation counter.

The base `SubstractiveSynthetizer` constructor never assigns `this.filter`
(only the `CustomSubstractiveSynthetizer` subclass does, Synthetizers.js:109),
yet `handleMessage` and `initOscillator` read `this.filter`.  The model
therefore describes a synthesizer with its filter attached, the configuration
under which the shared message-handling machine is exercised.
-/

/-- A JavaScript number-ish value: a finite number (modelled as a rational),
positive or negative infinity, `NaN`, or `undefined`/`null`. -/
inductive JVal where
  | num (q : ℚ)
  | inf
  | ninf
  | nan
  | undef
deriving DecidableEq, Repr

/-- JavaScript truthiness of a `JVal`: `0`, `NaN`, `undefined` and `null`
are falsy, every other number (infinities included) is truthy. -/
def JVal.truthy : JVal → Bool
  | .num q => q != 0
  | .inf => true
  | .ninf => true
  | .nan => false
  | .undef => false

/-- JavaScript `isNaN` on a `JVal` (`isNaN(undefined)` is `true`). -/
def jIsNaN : JVal → Bool
  | .nan => true
  | .undef => true
  | _ => false

/-- JavaScript addition on `JVal` (`undefined` coerces to `NaN`;
`Infinity + -Infinity` is `NaN`). -/
def jadd : JVal → JVal → JVal
  | .num a, .num b => .num (a + b)
  | .num _, .inf => .inf
  | .inf, .num _ => .inf
  | .num _, .ninf => .ninf
  | .ninf, .num _ => .ninf
  | .inf, .inf => .inf
  | .ninf, .ninf => .ninf
  | .inf, .ninf => .nan
  | .ninf, .inf => .nan
  | _, _ => .nan

/-- JavaScript negation on `JVal`. -/
def jneg : JVal → JVal
  | .num a => .num (-a)
  | .inf => .ninf
  | .ninf => .inf
  | _ => .nan

/-- JavaScript subtraction on `JVal`. -/
def jsub (a b : JVal) : JVal := jadd a (jneg b)

/-- Multiplication of a `JVal` by the positive literal 10, as in
`frequencyVariation * 10` (Synthetizers.js:64). -/
def jmul10 : JVal → JVal
  | .num a => .num (a * 10)
  | .inf => .inf
  | .ninf => .ninf
  | _ => .nan

/-- JavaScript strict comparison `a > q` of a `JVal` against a finite
number; comparisons involving `NaN` or `undefined` are `false`. -/
def jgtQ : JVal → ℚ → Bool
  | .num a, q => q < a
  | .inf, _ => true
  | _, _ => false

/-- JavaScript division on `JVal` (division of a nonzero finite number by
zero yields a signed infinity, `0/0` yields `NaN`). -/
def jdiv : JVal → JVal → JVal
  | .num a, .num b =>
      if b = 0 then
        if a = 0 then .nan else if 0 < a then .inf else .ninf
      else .num (a / b)
  | .num _, .inf => .num 0
  | .num _, .ninf => .num 0
  | .inf, .num _ => .inf
  | .ninf, .num _ => .ninf
  | _, _ => .nan

/-- The value `MIDIController.noteToFrequency(n)`, kept symbolic because
`js/MIDI.js` is not among the sources; the state machine only ever stores
and compares such values, never inspects them. -/
inductive FreqVal where
  | noteFreq (n : JVal)
deriving DecidableEq, Repr

/-- The state of a `Filter` instance (js/Filters.js): its stored parameters
together with the parameters last pushed to the underlying biquad node, and
the number of `connect` calls made on it. -/
structure FilterSt where
  ftype : String
  frequency : JVal
  defaultFrequency : JVal
  gain : JVal
  maxGain : ℚ
  q : JVal
  biquadType : String
  biquadFrequency : JVal
  biquadGain : JVal
  biquadQ : JVal
  destConnections : ℕ
deriving DecidableEq, Repr

/-- The `Filter` constructor followed by `initBiquadFilter`
(Filters.js:14-32): stores the parameters, remembers `frequency` as
`defaultFrequency`, fixes `maxGain` at 100 and pushes everything to the
biquad node. -/
def mkFilter (ftype : String) (frequency gain q : JVal) : FilterSt :=
  { ftype := ftype
    frequency := frequency
    defaultFrequency := frequency
    gain := gain
    maxGain := 100
    q := q
    biquadType := ftype
    biquadFrequency := frequency
    biquadGain := gain
    biquadQ := q
    destConnections := 0 }

/-- `Filter.updateFrequency` (Filters.js:51-56): store the value if it is
truthy, then always push the stored frequency to the biquad node. -/
def updFrequency (fl : FilterSt) (value : JVal) : FilterSt :=
  let fl1 := if value.truthy then { fl with frequency := value } else fl
  { fl1 with biquadFrequency := fl1.frequency }

/-- `Filter.updateGain` (Filters.js:42-50): if the value is truthy, cap it
at `maxGain` and store it; always push the stored gain to the biquad node. -/
def updGain (fl : FilterSt) (value : JVal) : FilterSt :=
  let fl1 :=
    if value.truthy then
      { fl with gain := if jgtQ value fl.maxGain then .num fl.maxGain else value }
    else fl
  { fl1 with biquadGain := fl1.gain }

/-- `Filter.connect` (Filters.js:33-35), called with the audio context's
destination: counted on the filter. -/
def filterConnect (fl : FilterSt) : FilterSt :=
  { fl with destConnections := fl.destConnections + 1 }

/-- The per-channel voice object `this.channels[channel]` together with the
observable state of the two audio nodes it holds.  In the program a channel
entry is only ever created by `initOscillator`, which always installs both
the gain node and the oscillator, so both are mandatory fields here.
`oscFreqNote` is the argument of the last `frequency.value =
noteToFrequency(...)` write; `oscRamps` and `gainRamps` collect the
scheduled `(target, end-time)` automation entries; `startingPosY` uses
`JVal.undef` for both the initially-missing property and the `null` written
by Note OFF. -/
structure Voice where
  oscId : ℕ
  gainId : ℕ
  oscType : String
  oscFreqNote : FreqVal
  oscRamps : List (FreqVal × ℚ)
  oscStarted : ℕ
  oscConnGain : Bool
  gainValue : JVal
  gainRamps : List (JVal × ℚ)
  gainConnFilter : Bool
  note : JVal
  startingPosY : JVal
deriving DecidableEq, Repr

/-- A parsed MIDI message, as dispatched to
`SubstractiveSynthetizer.handleMessage` (Synthetizers.js:30-68).  Channels
are natural numbers; the numeric payloads are JavaScript values. -/
inductive Message where
  | noteOn (channel : ℕ) (note : JVal)
  | noteOff (channel : ℕ)
  | pressure (channel : ℕ) (pressure : JVal)
  | pitchBend (channel : ℕ) (bend : JVal)
  | controlChange (channel : ℕ) (value : JVal)
deriving DecidableEq, Repr

/-- A JavaScript runtime error; the only one this code can raise is a
`TypeError` from reading or writing a property of `undefined`. -/
inductive JsError where
  | typeError
deriving DecidableEq, Repr

/-- The state of a `SubstractiveSynthetizer` with its filter attached:
the channel map, the filter, the configuration fields the machine reads
(`configuration.gain`, `configuration.fadeTime`, `configuration.type`),
the last message stored by Note ON (`this.message`), and an allocation
counter giving fresh node identities. -/
structure SynthState where
  channels : ℕ → Option Voice
  filter : FilterSt
  confGain : JVal
  fadeTime : ℚ
  waveType : String
  lastMsg : Option Message
  nextId : ℕ

/-- `SubstractiveSynthetizer.initOscillator` (Synthetizers.js:69-89): ensure
the channel object exists; create the gain node (gain 0, connected to the
filter's biquad node) and the oscillator (waveform type from the
configuration, connected to the gain node, filter connected to the
destination) when missing; set the oscillator frequency to
`noteToFrequency(note)` and call `start()`.  In the program a channel entry
always carries both nodes, so the per-node existence checks collapse to the
channel check. -/
def initOscillator (st : SynthState) (note : JVal) (channel : ℕ) : SynthState :=
  match st.channels channel with
  | some v =>
      { st with
        channels := Function.update st.channels channel
          (some { v with oscFreqNote := .noteFreq note, oscStarted := v.oscStarted + 1 }) }
  | none =>
      let v : Voice :=
        { oscId := st.nextId + 1
          gainId := st.nextId
          oscType := st.waveType
          oscFreqNote := .noteFreq note
          oscRamps := []
          oscStarted := 1
          oscConnGain := true
          gainValue := .num 0
          gainRamps := []
          gainConnFilter := true
          note := .undef
          startingPosY := .undef }
      { st with
        channels := Function.update st.channels channel (some v)
        filter := filterConnect st.filter
        nextId := st.nextId + 2 }

/-- `SubstractiveSynthetizer.handleMessage` (Synthetizers.js:30-68),
dispatching one message at audio-clock time `now`
(`this.audioContext.currentTime`).  Property accesses on a missing channel
entry surface as `JsError.typeError`, exactly where the code would throw. -/
def handleMessage (st : SynthState) (now : ℚ) (msg : Message) : Except JsError SynthState :=
  match msg with
  | .noteOn channel note =>
      let st1 := if (st.channels channel).isSome then st else initOscillator st note channel
      let st2 := { st1 with lastMsg := some msg }
      match st2.channels channel with
      | some v =>
          .ok { st2 with
                channels := Function.update st2.channels channel
                  (some { v with oscFreqNote := .noteFreq note, note := note }) }
      | none => .error .typeError
  | .noteOff channel =>
      match st.channels channel with
      | none => .error .typeError
      | some v =>
          .ok { st with
                channels := Function.update st.channels channel
                  (some { v with
                          startingPosY := .undef
                          gainRamps := v.gainRamps ++ [(JVal.num 0, now + st.fadeTime)] })
                filter := updFrequency st.filter st.filter.defaultFrequency }
  | .pressure channel p =>
      match st.channels channel with
      | none => .error .typeError
      | some v =>
          let target := jdiv p (jadd (.num 128) (if st.confGain.truthy then st.confGain else .num 0))
          .ok { st with
                channels := Function.update st.channels channel
                  (some { v with gainRamps := v.gainRamps ++ [(target, now + 1/10)] }) }
  | .pitchBend channel b =>
      match st.channels channel with
      | some v =>
          if v.note.truthy then
            let noteModulation := jadd v.note b
            if jIsNaN noteModulation then .ok st
            else
              .ok { st with
                    channels := Function.update st.channels channel
                      (some { v with
                              oscRamps := v.oscRamps ++ [(.noteFreq noteModulation, now + 1/10)] }) }
          else .ok st
      | none => .ok st
  | .controlChange channel value =>
      match st.channels channel with
      | none => .ok st
      | some v =>
          if v.startingPosY.truthy then
            let frequencyVariation := jsub value v.startingPosY
            .ok { st with
                  filter := updFrequency st.filter
                    (jadd st.filter.defaultFrequency (jmul10 frequencyVariation)) }
          else
            .ok { st with
                  channels := Function.update st.channels channel
                    (some { v with startingPosY := value }) }

/-- Dispatch a list of messages in order at a fixed audio-clock time,
stopping at the first JavaScript error. -/
def run (st : SynthState) (now : ℚ) : List Message → Except JsError SynthState
  | [] => .ok st
  | m :: ms => (handleMessage st now m).bind (fun st1 => run st1 now ms)

/-- A freshly constructed synthesizer with no voices, the default
configuration (gain 0, fadeTime 0.2, sine waveform) and a lowpass filter at
440 Hz. -/
def sampleSynth : SynthState :=
  { channels := fun _ => none
    filter := mkFilter "lowpass" (.num 440) (.num 0) (.num 1)
    confGain := .num 0
    fadeTime := 1/5
    waveType := "sine"
    lastMsg := none
    nextId := 0 }

/-- A synthesizer whose filter was constructed with frequency 0, so its
remembered `defaultFrequency` is the falsy value 0. -/
def zeroDefaultSynth : SynthState :=
  { sampleSynth with filter := mkFilter "lowpass" (.num 0) (.num 0) (.num 1) }

/-- A voice as `initOscillator` creates it on a fresh synthesizer, after a
Note ON for note 69 has also recorded the note. -/
def sampleVoice : Voice :=
  { oscId := 1
    gainId := 0
    oscType := "sine"
    oscFreqNote := .noteFreq (.num 69)
    oscRamps := []
    oscStarted := 1
    oscConnGain := true
    gainValue := .num 0
    gainRamps := []
    gainConnFilter := true
    note := .num 69
    startingPosY := .undef }

/-- A synthesizer with one sounding voice on channel 0. -/
def soundingSynth : SynthState :=
  { sampleSynth with
    channels := fun ch => if ch = 0 then some sampleVoice else none
    nextId := 2 }

/-- The sine-coefficient construction in the
`FunctionSubstractiveSynthetizer` constructor (Synthetizers.js:142-147):
`sin[0] = 0`, then `sin.push(funct(i))` for `i = 1 .. numSamples-1`.  The
generator is modelled as rational-valued. -/
def buildSine (funct : ℕ → ℚ) (numSamples : ℕ) : List ℚ :=
  0 :: (List.range' 1 (numSamples - 1)).map funct

/-- `new Int8Array(numSamples)` (Synthetizers.js:143): `numSamples` zeros. -/
def buildCosine (numSamples : ℕ) : List ℚ := List.replicate numSamples 0

/-- `Math.max(...list)`.  The construction above never yields an empty
list, so the irrelevant empty case (JavaScript would give `-Infinity`) is
mapped to 0. -/
def jsMax : List ℚ → ℚ
  | [] => 0
  | a :: l => l.foldl max a

/-- `Math.min(...list)`, under the same proviso as `jsMax`. -/
def jsMin : List ℚ → ℚ
  | [] => 0
  | a :: l => l.foldl min a

/-- `this.amplitude = Math.max(...this.sin) || (Math.min(...this.sin) * -1)`
(Synthetizers.js:107): the maximum when it is truthy (nonzero), otherwise
the negated minimum. -/
def amplitude (sin : List ℚ) : ℚ :=
  if jsMax sin ≠ 0 then jsMax sin else jsMin sin * -1

/-- A synthesizer configuration object: the fields of `defaultSynthConf`
(Synthetizers.js:7-11). -/
structure SynthConfObj where
  gain : JVal
  fadeTime : ℚ
  waveType : String
deriving DecidableEq, Repr

/-- The module-level `defaultSynthConf` object (Synthetizers.js:7-11). -/
def defaultSynthConf : SynthConfObj :=
  { gain := .num 0, fadeTime := 1/5, waveType := "sine" }

/-- A heap of configuration objects addressed by reference, making
JavaScript's object aliasing explicit. -/
def ConfHeap : Type := ℕ → SynthConfObj

/-- The address of the single module-level `defaultSynthConf` object; a
caller that omits the `configuration` argument passes this address. -/
def defaultConfAddr : ℕ := 0

/-- The reference-holding part of a constructed synthesizer object. -/
structure SynthObj where
  name : String
  configurationRef : ℕ
deriving DecidableEq, Repr

/-- The `SubstractiveSynthetizer` constructor's configuration handling
(Synthetizers.js:22-29): `this.configuration = configuration` stores the
reference, and `this.configuration.gain = this.configuration.gain || 0`
writes through that reference, replacing a falsy `gain` by 0. -/
def constructSynth (heap : ConfHeap) (name : String) (confRef : ℕ) :
    ConfHeap × SynthObj :=
  let c := heap confRef
  let c1 := { c with gain := if c.gain.truthy then c.gain else .num 0 }
  (Function.update heap confRef c1, { name := name, configurationRef := confRef })

/-- Modelled from the spec: `MIDIController.noteToFrequency` is defined in
`js/MIDI.js`, which is not among the sources; the spec gives the standard
equal-tempered mapping `Hz = 440 × 2^((note − 69) / 12)`. -/
noncomputable def noteToFrequency (note : ℝ) : ℝ :=
  440 * (2 : ℝ) ^ ((note - 69) / 12)

lemma foldl_max_mem (l : List ℚ) : ∀ a : ℚ, l.foldl max a ∈ a :: l := by
  induction l with
  | nil => intro a; simp
  | cons b l ih =>
      intro a
      rw [List.foldl_cons]
      rcases List.mem_cons.mp (ih (max a b)) with h1 | h1
      · rw [h1]
        rcases max_choice a b with h2 | h2
        · rw [h2]; exact List.mem_cons_self _ _
        · rw [h2]; exact List.mem_cons.mpr (Or.inr (List.mem_cons_self _ _))
      · exact List.mem_cons.mpr (Or.inr (List.mem_cons.mpr (Or.inr h1)))

lemma le_foldl_max (l : List ℚ) : ∀ a : ℚ, ∀ x ∈ a :: l, x ≤ l.foldl max a := by
  induction l with
  | nil =>
      intro a x hx
      rcases List.mem_cons.mp hx with h | h
      · rw [h]; exact le_refl _
      · simp at h
  | cons b l ih =>
      intro a x hx
      rw [List.foldl_cons]
      have hab : max a b ≤ l.foldl max (max a b) :=
        ih (max a b) (max a b) (List.mem_cons_self _ _)
      rcases List.mem_cons.mp hx with h1 | h1
      · rw [h1]; exact le_trans (le_max_left a b) hab
      · rcases List.mem_cons.mp h1 with h2 | h2
        · rw [h2]; exact le_trans (le_max_right a b) hab
        · exact ih (max a b) x (List.mem_cons.mpr (Or.inr h2))

lemma foldl_min_mem (l : List ℚ) : ∀ a : ℚ, l.foldl min a ∈ a :: l := by
  induction l with
  | nil => intro a; simp
  | cons b l ih =>
      intro a
      rw [List.foldl_cons]
      rcases List.mem_cons.mp (ih (min a b)) with h1 | h1
      · rw [h1]
        rcases min_choice a b with h2 | h2
        · rw [h2]; exact List.mem_cons_self _ _
        · rw [h2]; exact List.mem_cons.mpr (Or.inr (List.mem_cons_self _ _))
      · exact List.mem_cons.mpr (Or.inr (List.mem_cons.mpr (Or.inr h1)))

lemma foldl_min_le (l : List ℚ) : ∀ a : ℚ, ∀ x ∈ a :: l, l.foldl min a ≤ x := by
  induction l with
  | nil =>
      intro a x hx
      rcases List.mem_cons.mp hx with h | h
      · rw [h]; exact le_refl _
      · simp at h
  | cons b l ih =>
      intro a x hx
      rw [List.foldl_cons]
      have hab : l.foldl min (min a b) ≤ min a b :=
        ih (min a b) (min a b) (List.mem_cons_self _ _)
      rcases List.mem_cons.mp hx with h1 | h1
      · rw [h1]; exact le_trans hab (min_le_left a b)
      · rcases List.mem_cons.mp h1 with h2 | h2
        · rw [h2]; exact le_trans hab (min_le_right a b)
        · exact ih (min a b) x (List.mem_cons.mpr (Or.inr h2))

/-- C9: the note-to-frequency mapping is the pure total real function
`Hz = 440 × 2^((note − 69)/12)`: it maps note 69 to 440 Hz, doubles across
an octave (`+12`), and its output is a well-defined positive real for every
input, never failing.  (Modelled from the spec, since `js/MIDI.js` is not
among the sources.) -/
theorem noteToFrequency_spec :
    noteToFrequency 69 = 440
    ∧ (∀ n : ℝ, noteToFrequency (n + 12) = 2 * noteToFrequency n)
    ∧ (∀ n : ℝ, 0 < noteToFrequency n) := by
  refine ⟨?_, ?_, ?_⟩
  · have h : ((69 : ℝ) - 69) / 12 = 0 := by norm_num
    rw [noteToFrequency, h, Real.rpow_zero]; norm_num
  · intro n
    have h : (n + 12 - 69) / 12 = (n - 69) / 12 + 1 := by ring
    rw [noteToFrequency, noteToFrequency, h,
      Real.rpow_add (by norm_num : (0 : ℝ) < 2), Real.rpow_one]
    ring
  · intro n
    exact mul_pos (by norm_num)
      (Real.rpow_pos_of_pos (by norm_num) _)

/-- C8 counterexample: the claim says `updateGain(v)` stores `min(v, 100)`
for every value `v`, but `v = 0` is falsy, so the store is skipped: on a
filter whose gain is 50, `updateGain(0)` leaves the stored gain at 50
instead of the claimed `min(0, 100) = 0`. -/
theorem updateGain_zero_cx :
    (updGain (mkFilter "lowpass" (.num 440) (.num 50) (.num 1)) (.num 0)).gain = JVal.num 50
    ∧ JVal.num 50 ≠ JVal.num 0 :=
  ⟨rfl, by decide⟩

/-- C8 amended: for every nonzero value `v`, `updateGain(v)` stores
`min(v, 100)` and pushes it to the node; calling `updateGain` with no value
(or with the falsy value 0) leaves the stored gain unchanged and re-applies
it, so `updateGain(150)` followed by `updateGain()` yields a stored and
applied gain of 100 both times. -/
theorem updateGain_amended (fl : FilterSt) (w : ℚ) (hw : w ≠ 0)
    (hm : fl.maxGain = 100) :
    (updGain fl (.num w)).gain = .num (min w 100)
    ∧ (updGain fl (.num w)).biquadGain = .num (min w 100)
    ∧ (updGain fl .undef).gain = fl.gain
    ∧ (updGain fl .undef).biquadGain = fl.gain
    ∧ (updGain fl (.num 0)).gain = fl.gain
    ∧ (updGain (updGain fl (.num 150)) .undef).gain = .num 100
    ∧ (updGain (updGain fl (.num 150)) .undef).biquadGain = .num 100 := by
  have ht : (JVal.num w).truthy = true := by simp [JVal.truthy, hw]
  have hstore : (updGain fl (.num w)).gain = .num (min w 100) := by
    rw [updGain]
    by_cases h : (100 : ℚ) < w
    · simp [ht, jgtQ, hm, h, min_eq_right (le_of_lt h)]
    · simp [ht, jgtQ, hm, h, min_eq_left (le_of_not_lt h)]
  have h150 : (updGain fl (.num 150)).gain = .num 100 := by
    rw [updGain]
    simp [JVal.truthy, jgtQ, hm, show (100 : ℚ) < 150 by norm_num]
  refine ⟨hstore, ?_, ?_, ?_, ?_, ?_, ?_⟩
  · rw [show (updGain fl (.num w)).biquadGain = (updGain fl (.num w)).gain from rfl]
    exact hstore
  · rw [updGain]; simp [JVal.truthy]
  · rw [updGain]; simp [JVal.truthy]
  · rw [updGain]; simp [JVal.truthy]
  · rw [show (updGain (updGain fl (.num 150)) .undef).gain
        = (updGain fl (.num 150)).gain by rw [updGain]; simp [JVal.truthy]]
    exact h150
  · rw [show (updGain (updGain fl (.num 150)) .undef).biquadGain
        = (updGain fl (.num 150)).gain by rw [updGain]; simp [JVal.truthy]]
    exact h150

/-- Witness for the amended C8 theorem at a concrete filter and value. -/
theorem updateGain_amended_witness :
    (7 : ℚ) ≠ 0
    ∧ (updGain (mkFilter "lowpass" (.num 440) (.num 50) (.num 1)) (.num 7)).gain
      = .num (min 7 100) :=
  ⟨by norm_num,
    (updateGain_amended (mkFilter "lowpass" (.num 440) (.num 50) (.num 1)) 7
      (by norm_num) rfl).1⟩

/-- C7: for every generator `funct` and sample count, the waveform builder
produces sine coefficients `[0, funct 1, …, funct (numSamples−1)]` (index 0
is 0), a cosine sequence of `numSamples` zeros, and an amplitude equal to
the maximum sine coefficient unless all sine coefficients are non-positive,
in which case it is the negated minimum; the amplitude is positive whenever
the generator was sampled at least once and produced only negative
values. -/
theorem waveformBuilder_spec (funct : ℕ → ℚ) (numSamples : ℕ) :
    (buildSine funct numSamples).head? = some 0
    ∧ (1 ≤ numSamples → (buildSine funct numSamples).length = numSamples)
    ∧ (∀ i, 1 ≤ i → i < numSamples →
        (buildSine funct numSamples).get? i = some (funct i))
    ∧ (buildCosine numSamples).length = numSamples
    ∧ (∀ x ∈ buildCosine numSamples, x = 0)
    ∧ ((¬ ∀ x ∈ buildSine funct numSamples, x ≤ 0) →
        amplitude (buildSine funct numSamples) ∈ buildSine funct numSamples
        ∧ ∀ x ∈ buildSine funct numSamples,
            x ≤ amplitude (buildSine funct numSamples))
    ∧ ((∀ x ∈ buildSine funct numSamples, x ≤ 0) →
        -amplitude (buildSine funct numSamples) ∈ buildSine funct numSamples
        ∧ ∀ x ∈ buildSine funct numSamples,
            -amplitude (buildSine funct numSamples) ≤ x)
    ∧ (((List.range' 1 (numSamples - 1)).map funct ≠ []
        ∧ ∀ x ∈ (List.range' 1 (numSamples - 1)).map funct, x < 0) →
        0 < amplitude (buildSine funct numSamples)) := by
  set L : List ℚ := (List.range' 1 (numSamples - 1)).map funct with hL
  have hsin : buildSine funct numSamples = 0 :: L := rfl
  have hM : jsMax (0 :: L) = L.foldl max 0 := rfl
  have hm : jsMin (0 :: L) = L.foldl min 0 := rfl
  have hMmem : jsMax (0 :: L) ∈ (0 : ℚ) :: L := hM ▸ foldl_max_mem L 0
  have hMub : ∀ x ∈ (0 : ℚ) :: L, x ≤ jsMax (0 :: L) := by
    rw [hM]; exact le_foldl_max L 0
  have hmmem : jsMin (0 :: L) ∈ (0 : ℚ) :: L := hm ▸ foldl_min_mem L 0
  have hmlb : ∀ x ∈ (0 : ℚ) :: L, jsMin (0 :: L) ≤ x := by
    rw [hm]; exact foldl_min_le L 0
  have hM0 : 0 ≤ jsMax (0 :: L) := hMub 0 (List.mem_cons_self _ _)
  have hallle : ∀ h : (∀ x ∈ (0 : ℚ) :: L, x ≤ 0),
      amplitude (0 :: L) = jsMin (0 :: L) * -1 := by
    intro h
    have hMle : jsMax (0 :: L) ≤ 0 := h _ hMmem
    have : jsMax (0 :: L) = 0 := le_antisymm hMle hM0
    simp [amplitude, this]
  refine ⟨rfl, ?_, ?_, ?_, ?_, ?_, ?_, ?_⟩
  · intro h
    rw [hsin]
    simp only [List.length_cons, hL, List.length_map, List.length_range']
    omega
  · intro i h1 h2
    obtain ⟨j, rfl⟩ : ∃ j, i = j + 1 := ⟨i - 1, by omega⟩
    rw [hsin]
    show L.get? j = some (funct (j + 1))
    rw [hL, List.get?_map, List.get?_range' _ _ (by omega : j < numSamples - 1)]
    simp [Nat.add_comm 1 j]
  · simp [buildCosine]
  · intro x hx
    exact List.eq_of_mem_replicate hx
  · intro h
    rw [hsin] at h ⊢
    push_neg at h
    obtain ⟨x, hx, hx0⟩ := h
    have hMne : jsMax (0 :: L) ≠ 0 := by
      have := hMub x hx
      intro hc
      rw [hc] at this
      exact absurd (lt_of_lt_of_le hx0 this) (lt_irrefl 0)
    have hamp : amplitude (0 :: L) = jsMax (0 :: L) := by
      simp [amplitude, hMne]
    rw [hamp]
    exact ⟨hMmem, hMub⟩
  · intro h
    rw [hsin] at h ⊢
    have hamp := hallle h
    have hneg : -amplitude (0 :: L) = jsMin (0 :: L) := by
      rw [hamp]; ring
    rw [hneg]
    exact ⟨hmmem, hmlb⟩
  · intro ⟨hne, hneg⟩
    rw [hsin]
    have hall : ∀ x ∈ (0 : ℚ) :: L, x ≤ 0 := by
      intro x hx
      rcases List.mem_cons.mp hx with h | h
      · rw [h]
      · exact le_of_lt (hneg x h)
    have hamp := hallle hall
    obtain ⟨y, hy⟩ := List.exists_mem_of_ne_nil L hne
    have hy0 : y < 0 := hneg y hy
    have hmy : jsMin (0 :: L) ≤ y := hmlb y (List.mem_cons.mpr (Or.inr hy))
    rw [hamp]
    nlinarith

/-- Witness for the C7 theorem: generator `i ↦ −i` with 4 samples produces
a positive amplitude, and generator `i ↦ i` with 4 samples has `funct 2` at
index 2. -/
theorem waveformBuilder_spec_witness :
    0 < amplitude (buildSine (fun i => -(i : ℚ)) 4)
    ∧ (buildSine (fun i => (i : ℚ)) 4).get? 2 = some 2 := by
  constructor
  · exact (waveformBuilder_spec (fun i => -(i : ℚ)) 4).2.2.2.2.2.2.2
      ⟨by simp [List.range'], by decide⟩
  · exact (waveformBuilder_spec (fun i => (i : ℚ)) 4).2.2.1 2 (by decide) (by decide)

/-- C10: the constructor stores the caller-supplied configuration object by
reference (the synthesizer holds the address, not a copy) and overwrites its
`gain` field with 0 exactly when that field is falsy (leaving the object
untouched otherwise); synthesizers constructed without an explicit
configuration all hold the address of the single module-level
`defaultSynthConf` object, so a write through that address is visible to
every one of them. -/
theorem constructor_shares_configuration (heap : ConfHeap) (n1 n2 : String)
    (r : ℕ) :
    (constructSynth heap n1 r).2.configurationRef = r
    ∧ ((heap r).gain.truthy = false → ((constructSynth heap n1 r).1 r).gain = .num 0)
    ∧ ((heap r).gain.truthy = true → (constructSynth heap n1 r).1 = heap)
    ∧ (constructSynth heap n1 defaultConfAddr).2.configurationRef
        = (constructSynth (constructSynth heap n1 defaultConfAddr).1 n2
            defaultConfAddr).2.configurationRef
    ∧ (∀ x : SynthConfObj,
        Function.update heap ((constructSynth heap n1 defaultConfAddr).2.configurationRef)
          x defaultConfAddr = x) := by
  refine ⟨rfl, ?_, ?_, rfl, ?_⟩
  · intro h
    simp [constructSynth, h, Function.update_same]
  · intro h
    simp only [constructSynth, h, if_true]
    exact Function.update_eq_self r heap
  · intro x
    exact Function.update_same _ _ _

/-- Witness for the C10 theorem: constructing from a heap whose default
configuration object has an `undefined` gain writes 0 into the shared
object, and both default-constructed synthesizers hold the same address. -/
theorem constructor_shares_configuration_witness :
    (((fun _ => ({ gain := .undef, fadeTime := 1/5, waveType := "sine" } : SynthConfObj))
        : ConfHeap) 0).gain.truthy = false
    ∧ ((constructSynth
        ((fun _ => ({ gain := .undef, fadeTime := 1/5, waveType := "sine" } : SynthConfObj))
          : ConfHeap) "a" 0).1 0).gain = .num 0 := by
  refine ⟨by decide, ?_⟩
  exact (constructor_shares_configuration
    ((fun _ => ({ gain := .undef, fadeTime := 1/5, waveType := "sine" } : SynthConfObj))
      : ConfHeap) "a" "b" 0).2.1 (by decide)

/-- C1: dispatching Note ON for a channel with no voice creates a voice —
an oscillator whose frequency is set to `noteToFrequency(note)`, a gain
node with gain 0, wired oscillator→gain→filter→output (the filter is
connected to the destination), the oscillator is started exactly once, the
note is recorded for the channel — and the channel afterwards has a voice
(state Sounding). -/
theorem noteOn_silent_creates_voice (st : SynthState) (now : ℚ) (channel : ℕ)
    (note : JVal) (h : st.channels channel = none) :
    ∃ st1 v,
      handleMessage st now (.noteOn channel note) = .ok st1
      ∧ st1.channels channel = some v
      ∧ v.oscFreqNote = .noteFreq note
      ∧ v.gainValue = .num 0
      ∧ v.oscConnGain = true
      ∧ v.gainConnFilter = true
      ∧ st1.filter.destConnections = st.filter.destConnections + 1
      ∧ v.oscStarted = 1
      ∧ v.note = note
      ∧ (st1.channels channel).isSome = true := by
  simp only [handleMessage, initOscillator, h, Option.isSome_none, Bool.false_eq_true,
    if_false, Function.update_same]
  refine ⟨_, _, rfl, Function.update_same _ _ _, rfl, rfl, rfl, rfl, rfl, rfl, rfl, ?_⟩
  simp [Function.update_same]

/-- Witness for the C1 theorem on a freshly constructed synthesizer. -/
theorem noteOn_silent_creates_voice_witness :
    sampleSynth.channels 0 = none
    ∧ ∃ st1 v,
        handleMessage sampleSynth 0 (.noteOn 0 (.num 69)) = .ok st1
        ∧ st1.channels 0 = some v
        ∧ v.oscFreqNote = .noteFreq (.num 69)
        ∧ v.gainValue = .num 0
        ∧ v.oscConnGain = true
        ∧ v.gainConnFilter = true
        ∧ st1.filter.destConnections = sampleSynth.filter.destConnections + 1
        ∧ v.oscStarted = 1
        ∧ v.note = .num 69
        ∧ (st1.channels 0).isSome = true :=
  ⟨rfl, noteOn_silent_creates_voice sampleSynth 0 0 (.num 69) rfl⟩

lemma update_keeps_ids (f : ℕ → Option Voice) (ch0 : ℕ) (w w1 : Voice)
    (hw : f ch0 = some w) (hid1 : w1.oscId = w.oscId) (hid2 : w1.gainId = w.gainId)
    (ch : ℕ) (v : Voice) (h : f ch = some v) :
    ∃ v1, Function.update f ch0 (some w1) ch = some v1
      ∧ v1.oscId = v.oscId ∧ v1.gainId = v.gainId := by
  by_cases hc : ch = ch0
  · subst hc
    rw [hw] at h
    obtain rfl : w = v := Option.some.inj h
    exact ⟨w1, Function.update_same _ _ _, hid1, hid2⟩
  · exact ⟨v, by rw [Function.update_noteq hc]; exact h, rfl, rfl⟩

/-- C4: a channel's oscillator/gain pair is stable — every successfully
dispatched event maps a channel that had a voice to the same channel with a
voice carrying the same oscillator and gain-node identities (the pair is
never destroyed or replaced), and a Note ON for a channel that already has
a voice performs no allocation at all: the resulting state is the old one
with only the oscillator frequency, the recorded note and the
last-message field changed. -/
theorem voice_pair_stable :
    (∀ (st : SynthState) (now : ℚ) (msg : Message) (st1 : SynthState),
      handleMessage st now msg = .ok st1 →
      ∀ (channel : ℕ) (v : Voice), st.channels channel = some v →
        ∃ v1, st1.channels channel = some v1
          ∧ v1.oscId = v.oscId ∧ v1.gainId = v.gainId)
    ∧ (∀ (st : SynthState) (now : ℚ) (channel : ℕ) (note : JVal) (v : Voice),
        st.channels channel = some v →
        handleMessage st now (.noteOn channel note) =
          .ok { st with
                lastMsg := some (.noteOn channel note)
                channels := Function.update st.channels channel
                  (some { v with oscFreqNote := .noteFreq note, note := note }) }) := by
  constructor
  · intro st now msg st1 hok channel v hv
    cases msg with
    | noteOn ch0 n =>
        cases hch : st.channels ch0 with
        | some w =>
            simp only [handleMessage, hch, Option.isSome_some, if_true] at hok
            injection hok with hok
            subst hok
            exact update_keeps_ids st.channels ch0 w
              { w with oscFreqNote := FreqVal.noteFreq n, note := n }
              hch rfl rfl channel v hv
        | none =>
            simp only [handleMessage, initOscillator, hch, Option.isSome_none,
              Bool.false_eq_true, if_false, Function.update_same] at hok
            injection hok with hok
            subst hok
            have hc : channel ≠ ch0 := by
              intro he
              rw [he, hch] at hv
              exact Option.noConfusion hv
            refine ⟨v, ?_, rfl, rfl⟩
            simp only [Function.update_noteq hc]
            exact hv
    | noteOff ch0 =>
        cases hch : st.channels ch0 with
        | none => exact absurd hok (by simp [handleMessage, hch])
        | some w =>
            simp only [handleMessage, hch] at hok
            injection hok with hok
            subst hok
            exact update_keeps_ids st.channels ch0 w
              { w with startingPosY := JVal.undef,
                       gainRamps := w.gainRamps ++ [(JVal.num 0, now + st.fadeTime)] }
              hch rfl rfl channel v hv
    | pressure ch0 p =>
        cases hch : st.channels ch0 with
        | none => exact absurd hok (by simp [handleMessage, hch])
        | some w =>
            simp only [handleMessage, hch] at hok
            injection hok with hok
            subst hok
            exact update_keeps_ids st.channels ch0 w
              { w with gainRamps := w.gainRamps ++
                  [(jdiv p (jadd (JVal.num 128)
                      (if st.confGain.truthy then st.confGain else JVal.num 0)),
                    now + 1/10)] }
              hch rfl rfl channel v hv
    | pitchBend ch0 b =>
        cases hch : st.channels ch0 with
        | none =>
            simp only [handleMessage, hch] at hok
            injection hok with hok
            subst hok
            exact ⟨v, hv, rfl, rfl⟩
        | some w =>
            simp only [handleMessage, hch] at hok
            split at hok
            · split at hok
              · injection hok with hok
                subst hok
                exact ⟨v, hv, rfl, rfl⟩
              · injection hok with hok
                subst hok
                exact update_keeps_ids st.channels ch0 w
                  { w with oscRamps := w.oscRamps ++
                      [(FreqVal.noteFreq (jadd w.note b), now + 1/10)] }
                  hch rfl rfl channel v hv
            · injection hok with hok
              subst hok
              exact ⟨v, hv, rfl, rfl⟩
    | controlChange ch0 c =>
        cases hch : st.channels ch0 with
        | none =>
            simp only [handleMessage, hch] at hok
            injection hok with hok
            subst hok
            exact ⟨v, hv, rfl, rfl⟩
        | some w =>
            simp only [handleMessage, hch] at hok
            split at hok
            · injection hok with hok
              subst hok
              exact ⟨v, hv, rfl, rfl⟩
            · injection hok with hok
              subst hok
              exact update_keeps_ids st.channels ch0 w
                { w with startingPosY := c }
                hch rfl rfl channel v hv
  · intro st now channel note v hv
    simp only [handleMessage, hv, Option.isSome_some, if_true]

/-- Witness for the C4 theorem: a Note ON on the already-sounding channel 0
of `soundingSynth` reuses the voice, and the resulting state still carries
the same oscillator/gain identities. -/
theorem voice_pair_stable_witness :
    (handleMessage soundingSynth 0 (.noteOn 0 (.num 72)) =
      .ok { soundingSynth with
            lastMsg := some (.noteOn 0 (.num 72))
            channels := Function.update soundingSynth.channels 0
              (some { sampleVoice with oscFreqNote := .noteFreq (.num 72), note := .num 72 }) })
    ∧ ∃ v1,
        ({ soundingSynth with
            lastMsg := some (.noteOn 0 (.num 72))
            channels := Function.update soundingSynth.channels 0
              (some { sampleVoice with oscFreqNote := .noteFreq (.num 72), note := .num 72 }) }
          : SynthState).channels 0 = some v1
        ∧ v1.oscId = sampleVoice.oscId ∧ v1.gainId = sampleVoice.gainId := by
  have h := voice_pair_stable.2 soundingSynth 0 0 (.num 72) sampleVoice rfl
  exact ⟨h, voice_pair_stable.1 soundingSynth 0 (.noteOn 0 (.num 72)) _ h 0 sampleVoice rfl⟩

/-- C5 counterexample: the claim says Note OFF resets the filter frequency
to its recorded default baseline, but `updateFrequency` skips falsy values,
so with a default baseline of 0 the reset never happens.  Reachable run: on
a filter constructed at frequency 0, control changes move the filter to
500 Hz, and the subsequent Note OFF on the sounding channel leaves the
stored frequency at 500 instead of the claimed default 0. -/
theorem noteOff_zero_default_cx :
    (run zeroDefaultSynth 0
        [.noteOn 0 (.num 60), .controlChange 0 (.num 10), .controlChange 0 (.num 60),
          .noteOff 0]).toOption.map
      (fun s => (s.filter.frequency, s.filter.defaultFrequency, (s.channels 0).isSome))
    = some (JVal.num 500, JVal.num 0, true) := by
  simp [run, handleMessage, initOscillator, Except.bind, Except.toOption,
    Function.update_same, updFrequency, filterConnect, JVal.truthy, jadd, jsub, jneg,
    jmul10, zeroDefaultSynth, sampleSynth, mkFilter]
  norm_num

/-- C5 amended: Note OFF for a channel with a voice schedules a linear gain
ramp to 0 ending at the current audio-clock time plus `fadeTime`, clears the
channel's recorded control-change baseline, and retains the voice (same
oscillator/gain handles, frequency and ramps unchanged); the filter
frequency is reset to its recorded default baseline provided that default is
truthy (a default of 0 leaves the stored frequency unchanged, the falsy
value being skipped by `updateFrequency`). -/
theorem noteOff_sounding_amended (st : SynthState) (now : ℚ) (channel : ℕ)
    (v : Voice) (hv : st.channels channel = some v) :
    ∃ st1 v1,
      handleMessage st now (.noteOff channel) = .ok st1
      ∧ st1.channels channel = some v1
      ∧ v1.oscId = v.oscId
      ∧ v1.gainId = v.gainId
      ∧ v1.oscFreqNote = v.oscFreqNote
      ∧ v1.oscRamps = v.oscRamps
      ∧ v1.gainRamps = v.gainRamps ++ [(JVal.num 0, now + st.fadeTime)]
      ∧ v1.startingPosY = .undef
      ∧ v1.note = v.note
      ∧ (st.filter.defaultFrequency.truthy = true →
          st1.filter.frequency = st.filter.defaultFrequency
          ∧ st1.filter.biquadFrequency = st.filter.defaultFrequency)
      ∧ (st.filter.defaultFrequency.truthy = false →
          st1.filter.frequency = st.filter.frequency) := by
  simp only [handleMessage, hv]
  refine ⟨_, _, rfl, Function.update_same _ _ _, rfl, rfl, rfl, rfl, rfl, rfl, rfl,
    ?_, ?_⟩
  · intro h
    constructor
    · show (updFrequency st.filter st.filter.defaultFrequency).frequency = _
      simp [updFrequency, h]
    · show (updFrequency st.filter st.filter.defaultFrequency).biquadFrequency = _
      simp [updFrequency, h]
  · intro h
    show (updFrequency st.filter st.filter.defaultFrequency).frequency = _
    simp [updFrequency, h]

/-- Witness for the amended C5 theorem on the sounding channel 0 of
`soundingSynth`. -/
theorem noteOff_sounding_amended_witness :
    ∃ st1 v1,
      handleMessage soundingSynth 0 (.noteOff 0) = .ok st1
      ∧ st1.channels 0 = some v1
      ∧ v1.oscId = sampleVoice.oscId
      ∧ v1.gainId = sampleVoice.gainId
      ∧ v1.oscFreqNote = sampleVoice.oscFreqNote
      ∧ v1.oscRamps = sampleVoice.oscRamps
      ∧ v1.gainRamps = sampleVoice.gainRamps ++ [(JVal.num 0, 0 + soundingSynth.fadeTime)]
      ∧ v1.startingPosY = .undef
      ∧ v1.note = sampleVoice.note
      ∧ (soundingSynth.filter.defaultFrequency.truthy = true →
          st1.filter.frequency = soundingSynth.filter.defaultFrequency
          ∧ st1.filter.biquadFrequency = soundingSynth.filter.defaultFrequency)
      ∧ (soundingSynth.filter.defaultFrequency.truthy = false →
          st1.filter.frequency = soundingSynth.filter.frequency) :=
  noteOff_sounding_amended soundingSynth 0 0 sampleVoice rfl

/-- C6 counterexample: the claim says a non-finite `currentNote + bend`
schedules no ramp, but the code only filters `NaN` (`!isNaN(...)`), not
infinities: after Note ON for note 69, a pitch bend of `Infinity` makes
`currentNote + bend = Infinity` — non-finite — yet an exponential ramp to
`noteToFrequency(Infinity)` ending at time 0.1 is scheduled. -/
theorem pitchBend_infinite_cx :
    (run sampleSynth 0 [.noteOn 0 (.num 69), .pitchBend 0 .inf]).toOption.map
      (fun s => (s.channels 0).map (fun v => v.oscRamps.map Prod.fst))
    = some (some [FreqVal.noteFreq JVal.inf]) := by
  decide

/-- C6 amended: for a pitch bend on a channel with a voice, if the recorded
note is falsy (absent, or the note number 0) nothing happens; otherwise,
if `currentNote + bend` is `NaN` no ramp is scheduled and the state is
unchanged, and in every other case (infinite sums included) an exponential
frequency ramp to `noteToFrequency(currentNote + bend)` ending 0.1 s after
the current time is scheduled. -/
theorem pitchBend_amended (st : SynthState) (now : ℚ) (channel : ℕ) (b : JVal)
    (v : Voice) (hv : st.channels channel = some v) :
    (v.note.truthy = false →
      handleMessage st now (.pitchBend channel b) = .ok st)
    ∧ (v.note.truthy = true → jIsNaN (jadd v.note b) = true →
      handleMessage st now (.pitchBend channel b) = .ok st)
    ∧ (v.note.truthy = true → jIsNaN (jadd v.note b) = false →
      handleMessage st now (.pitchBend channel b) =
        .ok { st with
              channels := Function.update st.channels channel
                (some { v with
                        oscRamps := v.oscRamps ++
                          [(.noteFreq (jadd v.note b), now + 1/10)] }) }) := by
  refine ⟨?_, ?_, ?_⟩
  · intro h
    simp only [handleMessage, hv, h, Bool.false_eq_true, if_false]
  · intro h1 h2
    simp only [handleMessage, hv, h1, h2, if_true]
  · intro h1 h2
    simp only [handleMessage, hv, h1, h2, Bool.false_eq_true, if_false, if_true]

/-- Witness for the amended C6 theorem: a finite bend on the sounding
channel schedules the exponential ramp. -/
theorem pitchBend_amended_witness :
    handleMessage soundingSynth 0 (.pitchBend 0 (.num 3)) =
      .ok { soundingSynth with
            channels := Function.update soundingSynth.channels 0
              (some { sampleVoice with
                      oscRamps := sampleVoice.oscRamps ++
                        [(.noteFreq (jadd sampleVoice.note (.num 3)), 0 + 1/10)] }) } :=
  (pitchBend_amended soundingSynth 0 0 (.num 3) sampleVoice rfl).2.2 (by decide) (by decide)

/-- C2 counterexample: the claim says every non-NoteOn event on a channel
with no voice is a silent no-op that raises no error, but Note OFF on a
fresh synthesizer reads `this.channels[channel]['startingPosY']` of an
`undefined` entry and throws a `TypeError`. -/
theorem noteOff_missing_voice_cx :
    handleMessage sampleSynth 0 (.noteOff 0) = .error .typeError := by
  rfl

/-- C2 amended: of the non-NoteOn events dispatched for a channel with no
voice, Pitch Bend and Control Change are silent no-ops (no error, state and
nodes unchanged), while Note OFF and Pressure throw a `TypeError` (the
dispatch fails before any state change). -/
theorem missing_voice_amended (st : SynthState) (now : ℚ) (channel : ℕ)
    (b c p : JVal) (h : st.channels channel = none) :
    handleMessage st now (.pitchBend channel b) = .ok st
    ∧ handleMessage st now (.controlChange channel c) = .ok st
    ∧ handleMessage st now (.noteOff channel) = .error .typeError
    ∧ handleMessage st now (.pressure channel p) = .error .typeError := by
  refine ⟨?_, ?_, ?_, ?_⟩ <;> simp only [handleMessage, h]

/-- Witness for the amended C2 theorem on a fresh synthesizer. -/
theorem missing_voice_amended_witness :
    handleMessage sampleSynth 0 (.pitchBend 3 (.num 1)) = .ok sampleSynth
    ∧ handleMessage sampleSynth 0 (.controlChange 3 (.num 2)) = .ok sampleSynth
    ∧ handleMessage sampleSynth 0 (.noteOff 3) = .error .typeError
    ∧ handleMessage sampleSynth 0 (.pressure 3 (.num 4)) = .error .typeError :=
  missing_voice_amended sampleSynth 0 3 (.num 1) (.num 2) (.num 4) rfl

/-- C3 counterexample: the claim says the first control-change value is
recorded as the baseline and the baseline never changes afterwards, but the
code tests the stored baseline for falsiness, so a first value of 0 is
recorded and then overwritten: after Note ON and ControlChange(0),
ControlChange(5) re-records the baseline as 5 (instead of keeping 0) and
leaves the filter frequency at the 440 default (instead of the claimed
`440 + (5 − 0) × 10 = 490`). -/
theorem controlChange_zero_baseline_cx :
    (run sampleSynth 0
        [.noteOn 0 (.num 60), .controlChange 0 (.num 0), .controlChange 0 (.num 5)]).toOption.map
      (fun s => (s.filter.frequency, (s.channels 0).map Voice.startingPosY))
    = some (JVal.num 440, some (JVal.num 5)) := by
  decide

lemma cc_step_fresh (st : SynthState) (now : ℚ) (channel : ℕ) (v : Voice) (c : JVal)
    (hv : st.channels channel = some v) (hfresh : v.startingPosY.truthy = false) :
    handleMessage st now (.controlChange channel c) =
      .ok { st with
            channels := Function.update st.channels channel
              (some { v with startingPosY := c }) } := by
  simp only [handleMessage, hv, hfresh, Bool.false_eq_true, if_false]

lemma cc_step_established (st : SynthState) (now : ℚ) (channel : ℕ) (v : Voice) (c : JVal)
    (hv : st.channels channel = some v) (hbase : v.startingPosY.truthy = true) :
    handleMessage st now (.controlChange channel c) =
      .ok { st with
            filter := updFrequency st.filter
              (jadd st.filter.defaultFrequency (jmul10 (jsub c v.startingPosY))) } := by
  simp only [handleMessage, hv, hbase, if_true]

lemma cc_run_established (channel : ℕ) (v1 d : ℚ) (h1 : v1 ≠ 0) :
    ∀ (vs : List ℚ) (st : SynthState) (now : ℚ) (v : Voice),
      st.channels channel = some v →
      v.startingPosY = .num v1 →
      st.filter.defaultFrequency = .num d →
      (∀ w ∈ vs, d + (w - v1) * 10 ≠ 0) →
      ∃ st1,
        run st now (vs.map (fun w => Message.controlChange channel (.num w))) = .ok st1
        ∧ st1.channels = st.channels
        ∧ st1.filter.defaultFrequency = .num d
        ∧ ((vs = [] ∧ st1 = st)
            ∨ (∃ last, vs.getLast? = some last
                ∧ st1.filter.frequency = .num (d + (last - v1) * 10))) := by
  intro vs
  induction vs with
  | nil =>
      intro st now v hv hb hd hvs
      exact ⟨st, rfl, rfl, hd, Or.inl ⟨rfl, rfl⟩⟩
  | cons w ws ih =>
      intro st now v hv hb hd hvs
      have hbase : v.startingPosY.truthy = true := by
        rw [hb]; simp [JVal.truthy, h1]
      have hstep := cc_step_established st now channel v (.num w) hv hbase
      have htarget : jadd st.filter.defaultFrequency (jmul10 (jsub (.num w) v.startingPosY))
          = .num (d + (w - v1) * 10) := by
        rw [hd, hb]
        simp only [jsub, jneg, jadd, jmul10]
        rw [sub_eq_add_neg]
      rw [htarget] at hstep
      have hw0 : d + (w - v1) * 10 ≠ 0 := hvs w (List.mem_cons_self _ _)
      have hfreq2 : (updFrequency st.filter (.num (d + (w - v1) * 10))).frequency
          = .num (d + (w - v1) * 10) := by
        simp [updFrequency, JVal.truthy, hw0]
      have hd2 : (updFrequency st.filter (.num (d + (w - v1) * 10))).defaultFrequency
          = .num d := by
        rw [updFrequency]
        split <;> exact hd
      obtain ⟨st1, hrun, hch, hdd, hcase⟩ :=
        ih { st with filter := updFrequency st.filter (.num (d + (w - v1) * 10)) }
          now v hv hb hd2 (fun x hx => hvs x (List.mem_cons_of_mem _ hx))
      refine ⟨st1, ?_, hch, hdd, ?_⟩
      · rw [List.map_cons, run, hstep]
        simp only [Except.bind]
        exact hrun
      · rcases hcase with ⟨hnil, heq⟩ | ⟨last, hlast, hfreq⟩
        · refine Or.inr ⟨w, ?_, ?_⟩
          · rw [hnil]; rfl
          · rw [heq]; exact hfreq2
        · refine Or.inr ⟨last, ?_, hfreq⟩
          have hwsne : ws ≠ [] := by
            intro hc
            rw [hc] at hlast
            exact Option.noConfusion hlast
          obtain ⟨x, xs, rfl⟩ := List.exists_cons_of_ne_nil hwsne
          rw [List.getLast?_cons_cons]
          exact hlast

/-- C3 amended: on a channel with a voice and no recorded baseline, a first
control-change value `v1 ≠ 0` is recorded as the baseline with no filter
change, the baseline never changes while further control changes arrive, and
every subsequent value `v` drives the filter frequency to
`defaultFrequency + (v − v1) × 10` (stated for runs in which each such
target is nonzero, since `updateFrequency` skips the falsy value 0).  A
first value of 0 is also recorded, but — being falsy — it is overwritten by
the next value, which becomes the baseline instead. -/
theorem controlChange_baseline_amended (st : SynthState) (now : ℚ) (channel : ℕ)
    (v : Voice) (d v1 : ℚ) (vs : List ℚ)
    (hv : st.channels channel = some v)
    (hfresh : v.startingPosY.truthy = false)
    (hd : st.filter.defaultFrequency = .num d)
    (h1 : v1 ≠ 0)
    (hvs : ∀ w ∈ vs, d + (w - v1) * 10 ≠ 0) :
    ∃ st1 v2,
      run st now ((v1 :: vs).map (fun w => Message.controlChange channel (.num w))) = .ok st1
      ∧ st1.channels channel = some v2
      ∧ v2.startingPosY = .num v1
      ∧ (vs = [] → st1.filter = st.filter)
      ∧ (∀ last, vs.getLast? = some last →
          st1.filter.frequency = .num (d + (last - v1) * 10)) := by
  have hstep := cc_step_fresh st now channel v (.num v1) hv hfresh
  have hvA : ({ st with
        channels := Function.update st.channels channel
          (some { v with startingPosY := .num v1 }) } : SynthState).channels channel
      = some { v with startingPosY := .num v1 } := Function.update_same _ _ _
  obtain ⟨st1, hrun, hch, hdd, hcase⟩ :=
    cc_run_established channel v1 d h1 vs
      { st with
        channels := Function.update st.channels channel
          (some { v with startingPosY := .num v1 }) }
      now { v with startingPosY := .num v1 } hvA rfl hd hvs
  refine ⟨st1, { v with startingPosY := .num v1 }, ?_, ?_, rfl, ?_, ?_⟩
  · rw [List.map_cons, run, hstep]
    simp only [Except.bind]
    exact hrun
  · rw [hch]; exact hvA
  · intro hnil
    rcases hcase with ⟨_, heq⟩ | ⟨last, hlast, _⟩
    · rw [heq]
    · rw [hnil] at hlast
      exact Option.noConfusion hlast
  · intro last hlast
    rcases hcase with ⟨hnil, _⟩ | ⟨last2, hlast2, hfreq⟩
    · rw [hnil] at hlast
      exact Option.noConfusion hlast
    · rw [hlast] at hlast2
      obtain rfl : last = last2 := Option.some.inj hlast2
      exact hfreq

/-- Witness for the amended C3 theorem: the sequence [7, 9] on the fresh
sounding channel records baseline 7 and drives the filter to
`440 + (9 − 7) × 10`. -/
theorem controlChange_baseline_amended_witness :
    ∃ st1 v2,
      run soundingSynth 0
          (((7 : ℚ) :: [9]).map (fun w => Message.controlChange 0 (.num w))) = .ok st1
      ∧ st1.channels 0 = some v2
      ∧ v2.startingPosY = .num 7
      ∧ (([9] : List ℚ) = [] → st1.filter = soundingSynth.filter)
      ∧ (∀ last, ([9] : List ℚ).getLast? = some last →
          st1.filter.frequency = .num (440 + (last - 7) * 10)) :=
  controlChange_baseline_amended soundingSynth 0 0 sampleVoice 440 7 [9] rfl rfl rfl
    (by norm_num) (by intro w hw; simp only [List.mem_singleton] at hw; rw [hw]; norm_num)
